import Mathlib

/-!
Verification of the `.data` → CSV/XLSX converter (`converter.py`).

The pipeline has three stages operating on an in-memory table:
`load_data_file` (delimiter sniffing, delimited parse, schema check,
relabel to the fixed Wine headers), `clean_df` (duplicate removal keeping
first occurrences, then forward fill), and `save_output` (extension
dispatch to CSV or XLSX).

Modelling conventions:
* A source file is a `List Nat` of bytes; decoded text is a `List Nat`
  of Unicode code points (`decodeIgnore` models Python
  `bytes.decode("utf-8", errors="ignore")`: valid sequences are decoded,
  invalid bytes are dropped).
* Table cells are `Option (List Nat)`: `none` is a missing value (NaN),
  `some s` a non-empty field kept as its source text.  Pandas' numeric
  type inference is not modelled — a cell stands for its serialized
  text.  CSV quoting is likewise not modelled; round-trip statements
  therefore hypothesise cells free of delimiter/quote/newline characters.
* The `read_csv(..., sep=None, engine="python")` automatic delimiter
  detection taken when no comma is found in the sample is abstracted as
  an explicit function argument `auto`.
-/

set_option autoImplicit false
set_option maxRecDepth 6000

namespace DotConv

universe u
variable {α : Type u} {β : Type u}

/-- The fixed 14-name Wine schema (`WINE_HEADERS` in `converter.py`). -/
def WINE_HEADERS : List String := [
  "Cultivars",
  "Alcohol",
  "Malic acid",
  "Ash",
  "Alcalinity of ash",
  "Magnesium",
  "Total phenols",
  "Flavanoids",
  "Nonflavanoid phenols",
  "Proanthocyanins",
  "Color intensity",
  "Hue",
  "OD280/OD315 of diluted wines",
  "Proline"
]

/-- Code points of a string constant (used to compare text built from
column names with parsed text). -/
def strCodes (s : String) : List Nat := s.toList.map Char.toNat

/-- Code points back to a string (all points produced by the decoder are
valid, so `Char.ofNat` is exact on them). -/
def codesStr (l : List Nat) : String := String.mk (l.map Char.ofNat)

/-- A table: ordered column labels plus ordered rows of optional cells.
This is the in-memory `pandas.DataFrame` as the pipeline uses it: `none`
is NaN, positional integer index (dense, 0-based) is implicit in the
list order. -/
structure Table (α : Type u) where
  cols : List String
  rows : List (List (Option α))
deriving DecidableEq, Repr

/-- Failures `load_data_file` can raise: `emptyData` models pandas'
`EmptyDataError` on a file with no data rows, `schemaMismatch n` the
`ValueError` raised when the parsed column count `n` is not 14. -/
inductive LoadErr where
  | emptyData
  | schemaMismatch (found : Nat)
deriving DecidableEq, Repr

/-- The message attached to each load failure (the `schemaMismatch` text
is the f-string at `converter.py` line 46). -/
def loadErrMsg : LoadErr → String
  | .emptyData => "No columns to parse from file"
  | .schemaMismatch n =>
      "Dataset has " ++ toString n ++ " columns but Wine dataset requires "
        ++ toString WINE_HEADERS.length ++ "."

/-- Split a list on every occurrence of `sep` (the separator itself is
dropped); always returns at least one (possibly empty) chunk.  This is
the field/line splitting primitive of the delimited-text model. -/
def splitSep [DecidableEq α] (sep : α) : List α → List (List α)
  | [] => [[]]
  | b :: bs =>
    if b = sep then [] :: splitSep sep bs
    else
      match splitSep sep bs with
      | [] => [[b]]
      | f :: r => (b :: f) :: r

/-- Join chunks with `sep` between consecutive chunks (inverse of
`splitSep` when no chunk contains `sep`). -/
def joinSep (sep : α) : List (List α) → List α
  | [] => []
  | [f] => f
  | f :: fs => f ++ sep :: joinSep sep fs

/-- Drop one trailing carriage return from a line (universal-newline
handling of the parser). -/
def stripCR (l : List Nat) : List Nat :=
  if l.getLastD 0 = 13 then l.dropLast else l

/-- Default NA sentinels of `pandas.read_csv` (a parsed field equal to
one of these becomes a missing value). -/
def naTokens : List (List Nat) :=
  ["", "#N/A", "#N/A N/A", "#NA", "-1.#IND", "-1.#QNAN", "-NaN", "-nan",
   "1.#IND", "1.#QNAN", "<NA>", "N/A", "NA", "NULL", "NaN", "None",
   "n/a", "nan", "null"].map strCodes

/-- A parsed field as a cell: NA sentinels (including the empty field)
become missing, anything else is kept as its text. -/
def cellOf (f : List Nat) : Option (List Nat) :=
  if f ∈ naTokens then none else some f

/-- Split one line into comma-separated fields and convert each field
to a cell. -/
def lineCells (l : List Nat) : List (Option (List Nat)) :=
  (splitSep 44 l).map cellOf

/-- Parse decoded text as comma-delimited rows: split into lines, drop a
trailing CR per line, skip blank lines (`skip_blank_lines=True`), split
each line on commas and convert fields to cells.  `header=None`, so the
first line is data. -/
def parseComma (text : List Nat) : List (List (Option (List Nat))) :=
  (((splitSep 10 text).map stripCR).filter (fun l => !l.isEmpty)).map
    lineCells

/-- Row shaping of the pandas python engine with `on_bad_lines="skip"`:
the first parsed row fixes the column count `n`; a later row with more
than `n` fields is a bad line and is dropped, a row with fewer fields is
kept and padded with missing values. -/
def shapeRows (n : Nat) (raw : List (List (Option (List Nat)))) :
    List (List (Option (List Nat))) :=
  raw.filterMap (fun r =>
    if n < r.length then none
    else some (r ++ List.replicate (n - r.length) (none : Option (List Nat))))

/-- Is `b` a UTF-8 continuation byte? -/
def isCont (b : Nat) : Bool := 0x80 ≤ b && b < 0xC0

/-- Is `b1` a valid first continuation byte after lead `b` of a 3-byte
sequence (excludes overlong forms and surrogates)? -/
def valid3 (b b1 : Nat) : Bool :=
  isCont b1 && (b ≠ 0xE0 || 0xA0 ≤ b1) && (b ≠ 0xED || b1 < 0xA0)

/-- Is `b1` a valid first continuation byte after lead `b` of a 4-byte
sequence (excludes overlong forms and points above U+10FFFF)? -/
def valid4 (b b1 : Nat) : Bool :=
  isCont b1 && (b ≠ 0xF0 || 0x90 ≤ b1) && (b ≠ 0xF4 || b1 < 0x90)

/-- Worker for `decodeIgnore`.  Each step consumes at least one byte;
the fuel (structurally decreasing, initialised to the byte count) never
runs out before the input does. -/
def decodeGo : Nat → List Nat → List Nat
  | 0, _ => []
  | _ + 1, [] => []
  | fuel + 1, b :: bs =>
    if b < 0x80 then b :: decodeGo fuel bs
    else if b < 0xC2 then decodeGo fuel bs
    else if b < 0xE0 then
      match bs with
      | [] => []
      | b1 :: bs1 =>
        if isCont b1 then ((b - 0xC0) * 0x40 + (b1 - 0x80)) :: decodeGo fuel bs1
        else decodeGo fuel bs
    else if b < 0xF0 then
      match bs with
      | [] => []
      | [b1] => if valid3 b b1 then [] else decodeGo fuel bs
      | b1 :: b2 :: bs2 =>
        if ¬ valid3 b b1 then decodeGo fuel bs
        else if ¬ isCont b2 then decodeGo fuel (b2 :: bs2)
        else ((b - 0xE0) * 0x1000 + (b1 - 0x80) * 0x40 + (b2 - 0x80))
          :: decodeGo fuel bs2
    else if b < 0xF5 then
      match bs with
      | [] => []
      | [b1] => if valid4 b b1 then [] else decodeGo fuel bs
      | [b1, b2] =>
        if ¬ valid4 b b1 then decodeGo fuel bs
        else if ¬ isCont b2 then decodeGo fuel [b2]
        else []
      | b1 :: b2 :: b3 :: bs3 =>
        if ¬ valid4 b b1 then decodeGo fuel bs
        else if ¬ isCont b2 then decodeGo fuel (b2 :: b3 :: bs3)
        else if ¬ isCont b3 then decodeGo fuel (b3 :: bs3)
        else ((b - 0xF0) * 0x40000 + (b1 - 0x80) * 0x1000
              + (b2 - 0x80) * 0x40 + (b3 - 0x80)) :: decodeGo fuel bs3
    else decodeGo fuel bs

/-- `bytes.decode("utf-8", errors="ignore")`: decode UTF-8 to code
points, dropping invalid or truncated byte sequences instead of failing.
This models the `errors="ignore"` read at `converter.py` line 32. -/
def decodeIgnore (l : List Nat) : List Nat := decodeGo l.length l

/-- The raw parse stage of `load_data_file` (lines 32–41): decode the
file, take the first 2048 characters of the decoded text as the sniffing
sample, use the comma parser if the sample contains a comma, otherwise
the automatic delimiter detection `auto`. -/
def rawParse (file : List Nat)
    (auto : List Nat → Except LoadErr (List (List (Option (List Nat))))) :
    Except LoadErr (List (List (Option (List Nat)))) :=
  let text := decodeIgnore file
  if 44 ∈ text.take 2048 then Except.ok (parseComma text) else auto text

/-- The post-parse stage of `load_data_file` (lines 44–51): row shaping,
the 14-column schema check, and the unconditional relabelling to
`WINE_HEADERS`. -/
def postParse (rawE : Except LoadErr (List (List (Option (List Nat))))) :
    Except LoadErr (Table (List Nat)) :=
  match rawE with
  | .error e => .error e
  | .ok [] => .error .emptyData
  | .ok (r0 :: rs) =>
    if r0.length = WINE_HEADERS.length then
      .ok ⟨WINE_HEADERS, shapeRows r0.length (r0 :: rs)⟩
    else .error (.schemaMismatch r0.length)

/-- `load_data_file` (lines 29–51). -/
def load_data_file (file : List Nat)
    (auto : List Nat → Except LoadErr (List (List (Option (List Nat))))) :
    Except LoadErr (Table (List Nat)) :=
  postParse (rawParse file auto)

/-- Duplicate removal keeping first occurrences, accumulating the rows
already seen. -/
def keepFirstsAux [DecidableEq β] (seen : List β) : List β → List β
  | [] => []
  | x :: xs =>
    if x ∈ seen then keepFirstsAux seen xs
    else x :: keepFirstsAux (x :: seen) xs

/-- `DataFrame.drop_duplicates()` followed by `reset_index(drop=True)`:
keep the first occurrence of every distinct row, in order, on a dense
positional index. -/
def keepFirsts [DecidableEq β] (l : List β) : List β := keepFirstsAux [] l

/-- Fill the missing cells of one row from the per-column
last-seen-value state `prev` (positions beyond `prev` are left as is). -/
def fillRow : List (Option α) → List (Option α) → List (Option α)
  | [], _ => []
  | x :: xs, [] => x :: fillRow xs []
  | x :: xs, p :: ps => (x <|> p) :: fillRow xs ps

/-- Forward fill, threading the filled previous row as the per-column
last-seen-value state. -/
def ffillGo : List (Option α) → List (List (Option α)) → List (List (Option α))
  | _, [] => []
  | prev, r :: rs => fillRow r prev :: ffillGo (fillRow r prev) rs

/-- `DataFrame.ffill()`: every missing cell becomes the nearest
preceding non-missing value of its column, if any. -/
def ffill (rows : List (List (Option α))) : List (List (Option α)) :=
  ffillGo [] rows

/-- `clean_df` (lines 54–57): drop duplicate rows keeping the first
occurrence, reindex densely, then forward fill. -/
def clean_df [DecidableEq α] (t : Table α) : Table α :=
  ⟨t.cols, ffill (keepFirsts t.rows)⟩

/-- The cell of `rows` at row `i`, column `c` (missing when out of
bounds). -/
def cell (rows : List (List (Option α))) (i c : Nat) : Option α :=
  (rows.getD i []).getD c none

/-- The last non-`none` entry of a list of optional values, if any. -/
def lastSome : List (Option α) → Option α
  | [] => none
  | x :: xs => lastSome xs <|> x

/-- The entries of column `c` in rows `0..i` of `rows` (clipped to the
table's height). -/
def colCells (c : Nat) : List (List (Option α)) → Nat → List (Option α)
  | [], _ => []
  | r :: _, 0 => [r.getD c none]
  | r :: rs, i + 1 => r.getD c none :: colCells c rs i

/-- Reference description of duplicate removal: fold the rows left to
right, appending a row only on its first occurrence. -/
def firstOccurrences [DecidableEq β] (l : List β) : List β :=
  l.foldl (fun acc x => if x ∈ acc then acc else acc ++ [x]) []

/-- `pathlib.PurePath.suffix` on the final path component: the part from
the last dot on, unless that dot is the first or last character of the
name. -/
def pySuffix (name : List Char) : List Char :=
  match splitSep '.' name with
  | [] => []
  | [_] => []
  | parts =>
    if parts.getLastD [] = [] then []
    else if joinSep '.' parts.dropLast = [] then []
    else '.' :: parts.getLastD []

/-- The extension of an output path: `pathlib` suffix of the last `/`
component (dot-component special cases of `pathlib` are not modelled;
the writer claims only constrain the computed suffix). -/
def pathSuffix (path : List Char) : List Char :=
  pySuffix ((splitSep '/' path).getLastD [])

/-- What `save_output` does: either a file is produced (with the exact
serialized content for CSV, or the header and rows handed to the
spreadsheet writer for XLSX), or a typed failure is raised and nothing
is written. -/
inductive SaveOutcome where
  | wroteCsv (content : List Nat)
  | wroteXlsx (cols : List String) (rows : List (List (Option (List Nat))))
  | unsupportedFormat (msg : String)
  | missingDependency (msg : String)
deriving DecidableEq, Repr

/-- The `ImportError` message raised when `.xlsx` is requested and
`openpyxl` is absent (lines 68–73). -/
def openpyxlMsg : String :=
  "Excel export requires \x27openpyxl\x27 package.\n\n"
    ++ "Please install it by running:\npip install openpyxl\n\n"
    ++ "Or save the file as CSV instead."

/-- The `ValueError` message for an unsupported output extension
(line 77). -/
def unsupportedMsg : String :=
  "Unsupported output format. Please use .xlsx or .csv"

/-- The header line of the CSV output: column names joined by commas. -/
def headerLine (cols : List String) : List Nat :=
  joinSep 44 (cols.map strCodes)

/-- One data line of the CSV output: cells joined by commas, a missing
cell as an empty field. -/
def rowLine (r : List (Option (List Nat))) : List Nat :=
  joinSep 44 (r.map (fun x => x.getD []))

/-- `DataFrame.to_csv(path, index=False)`: a header line of the column
names followed by one comma-joined line per row (missing cells as empty
fields), each line terminated by a newline. -/
def to_csvText (t : Table (List Nat)) : List Nat :=
  ((headerLine t.cols :: t.rows.map rowLine)
    |>.map (fun l => l ++ [10])).flatten

/-- `save_output` (lines 60–77): dispatch on the lower-cased path
suffix; `.xlsx` needs the spreadsheet writer (`openpyxl`) and fails
with the dependency message when it is absent; `.csv` serializes as
comma-delimited text; anything else is an unsupported format.  No
branch writes a file before its check passes. -/
def save_output (t : Table (List Nat)) (path : List Char)
    (openpyxlAvailable : Bool) : SaveOutcome :=
  let ext := (pathSuffix path).map Char.toLower
  if ext = (".xlsx").toList then
    if openpyxlAvailable then .wroteXlsx t.cols t.rows
    else .missingDependency openpyxlMsg
  else if ext = (".csv").toList then .wroteCsv (to_csvText t)
  else .unsupportedFormat unsupportedMsg

/-- Re-reading a written file as plain CSV with a header row
(`pandas.read_csv` with default `header=0`): the first non-blank line
gives the column labels, later lines the rows. -/
def reload_csv (text : List Nat) : Option (Table (List Nat)) :=
  match (((splitSep 10 text).map stripCR).filter (fun l => !l.isEmpty)) with
  | [] => none
  | h :: rs => some ⟨(splitSep 44 h).map codesStr, rs.map lineCells⟩

/-- Number of rows of a successful load (used to evaluate loads at
concrete inputs). -/
def rowCount : Except LoadErr (Table (List Nat)) → Option Nat
  | .ok t => some t.rows.length
  | .error _ => none

deriving instance DecidableEq for Except

/-! ### Concrete inputs used to evaluate the pipeline -/

/-- An automatic-delimiter-detection stand-in that always fails; used to
show the comma path never consults it. -/
def autoFail : List Nat → Except LoadErr (List (List (Option (List Nat)))) :=
  fun _ => Except.error LoadErr.emptyData

/-- A 14-field input whose first row looks like a header (it is the
header names themselves), followed by one numeric row. -/
def fileHdr : List Nat :=
  strCodes (String.intercalate (",") WINE_HEADERS) ++ [10]
    ++ strCodes ("1,2,3,4,5,6,7,8,9,10,11,12,13,14") ++ [10]

/-- The header-like first row of `fileHdr`, parsed as ordinary data. -/
def hdrRow : List (Option (List Nat)) :=
  WINE_HEADERS.map (fun s => some (strCodes s))

/-- The numeric second row of `fileHdr`, parsed. -/
def dataRow14 : List (Option (List Nat)) :=
  ["1", "2", "3", "4", "5", "6", "7", "8", "9", "10", "11", "12",
   "13", "14"].map (fun s => some (strCodes s))

/-- A file with 15 comma-separated fields in its single row. -/
def file15 : List Nat :=
  strCodes ("1,2,3,4,5,6,7,8,9,10,11,12,13,14,15") ++ [10]

/-- The parsed single row of `file15`. -/
def row15 : List (Option (List Nat)) :=
  ["1", "2", "3", "4", "5", "6", "7", "8", "9", "10", "11", "12",
   "13", "14", "15"].map (fun s => some (strCodes s))

/-- A file with one 14-field row (`A,...`) and one 13-field row
(`B,...`). -/
def fileAB : List Nat :=
  strCodes ("A,1,2,3,4,5,6,7,8,9,10,11,12,13") ++ [10]
    ++ strCodes ("B,1,2,3,4,5,6,7,8,9,10,11,12") ++ [10]

/-- The parsed 14-field row of `fileAB`. -/
def rowA : List (Option (List Nat)) :=
  ["A", "1", "2", "3", "4", "5", "6", "7", "8", "9", "10", "11", "12",
   "13"].map (fun s => some (strCodes s))

/-- The parsed 13-field row of `fileAB`. -/
def rowB : List (Option (List Nat)) :=
  ["B", "1", "2", "3", "4", "5", "6", "7", "8", "9", "10", "11",
   "12"].map (fun s => some (strCodes s))

/-- A 2053-byte file: 513 four-byte characters (U+1F600) followed by a
comma.  Its first 2048 bytes decode to 512 characters and contain no
comma, while the first 2048 characters of the decoded file do contain
the comma. -/
def fileBig : List Nat :=
  (List.replicate 513 [0xF0, 0x9F, 0x98, 0x80]).flatten ++ [44]

/-- The table `load_data_file` produces from `fileHdr`. -/
def tHdr : Table (List Nat) := ⟨WINE_HEADERS, [hdrRow, dataRow14]⟩

/-- The table `load_data_file` produces from `fileAB`: both rows kept,
the short one padded with a missing value. -/
def tAB : Table (List Nat) := ⟨WINE_HEADERS, [rowA, rowB ++ [none]]⟩

/-- A two-row table whose rows are distinct but become equal after
forward fill. -/
def tDup : Table Nat := ⟨["c"], [[some 1], [none]]⟩

/-- A duplicate-bearing table without missing values. -/
def tTrip : Table Nat := ⟨["c"], [[some 1], [some 1], [some 2]]⟩

/-- A two-row, three-column table whose second row has a missing third
field below the value `X` (code point 88). -/
def tFill : Table (List Nat) :=
  ⟨["x", "y", "z"],
   [[some [97], some [98], some [88]], [some [97], some [99], none]]⟩

/-- A well-behaved Wine-shaped table (non-empty cells, one missing
value) for the CSV round-trip. -/
def tGood : Table (List Nat) :=
  ⟨WINE_HEADERS,
   [some [65] :: List.replicate 13 (some [55]),
    none :: List.replicate 13 (some [56])]⟩

/-- A Wine-shaped table whose first cell is a present empty string. -/
def tEmptyCell : Table (List Nat) :=
  ⟨WINE_HEADERS, [some [] :: List.replicate 13 (some [49])]⟩

/-! ### C7: unsupported output extension -/

/-- C7: for every Table and every output path whose extension
(case-insensitive) is neither `.csv` nor `.xlsx`, `save_output` fails
with the unsupported-format error and writes no file at the output
path. -/
theorem c7_unsupported_format (t : Table (List Nat)) (path : List Char)
    (dep : Bool)
    (h1 : (pathSuffix path).map Char.toLower ≠ (".csv").toList)
    (h2 : (pathSuffix path).map Char.toLower ≠ (".xlsx").toList) :
    save_output t path dep = SaveOutcome.unsupportedFormat unsupportedMsg
      ∧ (∀ c, save_output t path dep ≠ SaveOutcome.wroteCsv c)
      ∧ (∀ cs rs, save_output t path dep ≠ SaveOutcome.wroteXlsx cs rs) := by
  have hs : save_output t path dep = SaveOutcome.unsupportedFormat unsupportedMsg := by
    simp only [save_output]
    rw [if_neg h2, if_neg h1]
  refine ⟨hs, fun c hc => ?_, fun cs rs hx => ?_⟩
  · rw [hs] at hc; exact SaveOutcome.noConfusion hc
  · rw [hs] at hx; exact SaveOutcome.noConfusion hx

/-- Witness for C7 at the path `out.txt`. -/
theorem c7_unsupported_format_witness :
    save_output ⟨WINE_HEADERS, []⟩ (("out.txt").toList) true
      = SaveOutcome.unsupportedFormat unsupportedMsg :=
  (c7_unsupported_format ⟨WINE_HEADERS, []⟩ (("out.txt").toList) true
    (by decide) (by decide)).1

/-! ### C8: missing spreadsheet dependency -/

/-- C8: when the output extension is `.xlsx` (case-insensitive) and the
spreadsheet-writing dependency is absent, `save_output` fails with the
missing-dependency error, whose message explicitly suggests CSV as a
fallback. -/
theorem c8_missing_dependency (t : Table (List Nat)) (path : List Char)
    (h : (pathSuffix path).map Char.toLower = (".xlsx").toList) :
    save_output t path false = SaveOutcome.missingDependency openpyxlMsg
      ∧ ("Or save the file as CSV instead.").toList <:+: openpyxlMsg.toList
      ∧ ("CSV").toList <:+: openpyxlMsg.toList := by
  refine ⟨?_, by decide, by decide⟩
  simp only [save_output]
  rw [if_pos h]
  rfl

/-- Witness for C8 at the path `report.xlsx`. -/
theorem c8_missing_dependency_witness :
    save_output ⟨WINE_HEADERS, []⟩ (("report.xlsx").toList) false
      = SaveOutcome.missingDependency openpyxlMsg :=
  (c8_missing_dependency ⟨WINE_HEADERS, []⟩ (("report.xlsx").toList)
    (by decide)).1

/-! ### C1: fixed column labels -/

/-- C1: whenever `load_data_file` succeeds, the resulting table's column
labels are exactly the fixed 14-name Wine list, and the first parsed row
(header-like or not) is kept as the first data row. -/
theorem c1_load_forces_wine_headers (file : List Nat)
    (auto : List Nat → Except LoadErr (List (List (Option (List Nat)))))
    (t : Table (List Nat))
    (h : load_data_file file auto = Except.ok t) :
    t.cols = WINE_HEADERS
      ∧ ∀ r0 rs, rawParse file auto = Except.ok (r0 :: rs) →
          t.rows.head? = some r0 := by
  unfold load_data_file at h
  cases hr : rawParse file auto with
  | error e => rw [hr] at h; exact Except.noConfusion h
  | ok raw =>
    rw [hr] at h
    cases raw with
    | nil => exact Except.noConfusion h
    | cons r0 rs =>
      simp only [postParse] at h
      by_cases hl : r0.length = WINE_HEADERS.length
      · rw [if_pos hl] at h
        have ht := Except.ok.inj h
        subst ht
        refine ⟨rfl, fun r0' rs' hr' => ?_⟩
        obtain ⟨he1, _⟩ := List.cons.inj (Except.ok.inj hr')
        subst he1
        simp [shapeRows, List.filterMap_cons]
      · rw [if_neg hl] at h; exact Except.noConfusion h

/-- Witness for C1: a file whose first line is the Wine header names
loads with the fixed labels and that line kept as row 0. -/
theorem c1_load_forces_wine_headers_witness :
    tHdr.cols = WINE_HEADERS ∧ tHdr.rows.head? = some hdrRow :=
  ⟨(c1_load_forces_wine_headers fileHdr autoFail tHdr (by decide)).1,
   (c1_load_forces_wine_headers fileHdr autoFail tHdr (by decide)).2
     hdrRow [dataRow14] (by decide)⟩

/-! ### C2: schema mismatch on a column count other than 14 -/

/-- C2: when the parsed column count (the field count of the first
parsed row) differs from 14, `load_data_file` fails with a schema
mismatch carrying that count, and the failure message contains both the
parsed count and `14`. -/
theorem c2_schema_mismatch (file : List Nat)
    (auto : List Nat → Except LoadErr (List (List (Option (List Nat)))))
    (r0 : List (Option (List Nat))) (rs : List (List (Option (List Nat))))
    (h : rawParse file auto = Except.ok (r0 :: rs))
    (hn : r0.length ≠ 14) :
    load_data_file file auto
        = Except.error (LoadErr.schemaMismatch r0.length)
      ∧ (toString r0.length).toList
          <:+: (loadErrMsg (LoadErr.schemaMismatch r0.length)).toList
      ∧ ("14").toList
          <:+: (loadErrMsg (LoadErr.schemaMismatch r0.length)).toList := by
  refine ⟨?_, ?_, ?_⟩
  · unfold load_data_file
    rw [h]
    simp only [postParse]
    have hw : WINE_HEADERS.length = 14 := rfl
    rw [hw, if_neg hn]
  · refine ⟨("Dataset has ").toList,
      (" columns but Wine dataset requires 14.").toList, ?_⟩
    simp only [loadErrMsg, String.data_append, String.toList]
    simp
    decide
  · refine ⟨("Dataset has " ++ toString r0.length
        ++ " columns but Wine dataset requires ").toList,
      (".").toList, ?_⟩
    simp only [loadErrMsg, String.data_append, String.toList]
    simp
    decide

/-- Witness for C2: the 15-field file fails with a message naming 15
and 14. -/
theorem c2_schema_mismatch_witness :
    load_data_file file15 autoFail = Except.error (LoadErr.schemaMismatch 15)
      ∧ ("15").toList <:+: (loadErrMsg (LoadErr.schemaMismatch 15)).toList :=
  ⟨(c2_schema_mismatch file15 autoFail row15 [] (by decide) (by decide)).1,
   (c2_schema_mismatch file15 autoFail row15 [] (by decide) (by decide)).2.1⟩

/-! ### C5: handling of rows with the wrong field count -/

/-- C5 as stated is false: the 13-field row of `fileAB` is not skipped;
the load succeeds with two rows, not one. -/
theorem c5_counterexample :
    rowCount (load_data_file fileAB autoFail) = some 2
      ∧ rowCount (load_data_file fileAB autoFail) ≠ some 1 := by
  constructor
  · decide
  · decide

/-- Bad-line dispatch of `shapeRows`: only rows with more fields than
the first row are dropped; shorter rows are padded with missing
values. -/
theorem shapeRows_eq_filter (n : Nat) (raw : List (List (Option (List Nat)))) :
    shapeRows n raw
      = (raw.filter (fun r => r.length ≤ n)).map
          (fun r => r ++ List.replicate (n - r.length) none) := by
  induction raw with
  | nil => rfl
  | cons r rest ih =>
    by_cases hr : n < r.length
    · have : ¬ r.length ≤ n := Nat.not_le.mpr hr
      simp [shapeRows, List.filterMap_cons, hr, this] at ih ⊢
      exact ih
    · have : r.length ≤ n := Nat.not_lt.mp hr
      simp [shapeRows, List.filterMap_cons, hr, this] at ih ⊢
      exact ih

/-- C5 amended: during load, a parsed row with more fields than the
first row is silently skipped, while a row with fewer fields is kept,
padded with missing values; the row count of the result is the number
of parsed rows with at most the first row's field count. -/
theorem c5_short_rows_padded (file : List Nat)
    (auto : List Nat → Except LoadErr (List (List (Option (List Nat)))))
    (r0 : List (Option (List Nat))) (rs : List (List (Option (List Nat))))
    (t : Table (List Nat))
    (h : rawParse file auto = Except.ok (r0 :: rs))
    (ht : load_data_file file auto = Except.ok t) :
    t.rows.length
        = ((r0 :: rs).filter (fun r => r.length ≤ r0.length)).length
      ∧ ∀ r ∈ r0 :: rs, r.length ≤ r0.length →
          (r ++ List.replicate (r0.length - r.length) none) ∈ t.rows := by
  unfold load_data_file at ht
  rw [h] at ht
  simp only [postParse] at ht
  by_cases hl : r0.length = WINE_HEADERS.length
  · rw [if_pos hl] at ht
    have he := Except.ok.inj ht
    subst he
    rw [shapeRows_eq_filter]
    constructor
    · exact (List.length_map _ _).symm ▸ rfl
    · intro r hr hle
      exact List.mem_map_of_mem _ (List.mem_filter.mpr ⟨hr, by simpa using hle⟩)
  · rw [if_neg hl] at ht; exact Except.noConfusion ht

/-- Witness for the amended C5 at the 14/13-field scenario file. -/
theorem c5_short_rows_padded_witness :
    tAB.rows.length = 2 ∧ (rowB ++ List.replicate 1 none) ∈ tAB.rows := by
  have h := c5_short_rows_padded fileAB autoFail rowA [rowB] tAB
    (by decide) (by decide)
  exact ⟨h.1.trans (by decide), h.2 rowB (by decide) (by decide)⟩

/-! ### C9: delimiter inference -/

/-- C9 amended: the sniffing sample is the first 2048 characters of the
whole decoded file (not the first 2048 bytes); if it contains a comma
the comma parser is used (the automatic detection is never consulted),
otherwise parsing is delegated to the automatic delimiter detection. -/
theorem c9_delimiter_dispatch (file : List Nat)
    (auto : List Nat → Except LoadErr (List (List (Option (List Nat))))) :
    (44 ∈ (decodeIgnore file).take 2048 →
        rawParse file auto = Except.ok (parseComma (decodeIgnore file)))
      ∧ (44 ∉ (decodeIgnore file).take 2048 →
        rawParse file auto = auto (decodeIgnore file)) := by
  constructor <;> intro h <;> simp only [rawParse] <;> simp [h]

/-- Witness for the amended C9: the comma file takes the comma path even
though the automatic detection always fails. -/
theorem c9_delimiter_dispatch_witness :
    rawParse file15 autoFail = Except.ok (parseComma (decodeIgnore file15)) :=
  (c9_delimiter_dispatch file15 autoFail).1 (by decide)

/-- The decoder never produces output when its fuel or input is
exhausted. -/
theorem decodeGo_nil (fuel : Nat) : decodeGo fuel ([] : List Nat) = [] := by
  cases fuel <;> rfl

/-- One decoding step on the four-byte sequence of U+1F600. -/
theorem decodeGo_step_grin (k : Nat) (tail : List Nat) :
    decodeGo (k + 1) (0xF0 :: 0x9F :: 0x98 :: 0x80 :: tail)
      = 128512 :: decodeGo k tail := rfl

/-- Decoding a block of `n` copies of the U+1F600 bytes followed by
anything else (one unit of fuel is spent per decoded character). -/
theorem decodeGo_grin (n : Nat) : ∀ (fuel : Nat) (rest : List Nat),
    decodeGo (n + fuel)
        ((List.replicate n ([0xF0, 0x9F, 0x98, 0x80] : List Nat)).flatten
          ++ rest)
      = List.replicate n 128512 ++ decodeGo fuel rest := by
  induction n with
  | zero => intro fuel rest; simp
  | succ n ih =>
    intro fuel rest
    have harith : n + 1 + fuel = (n + fuel) + 1 := by omega
    have hflat :
        ((List.replicate (n + 1)
            ([0xF0, 0x9F, 0x98, 0x80] : List Nat)).flatten ++ rest)
          = 0xF0 :: 0x9F :: 0x98 :: 0x80
              :: ((List.replicate n
                    ([0xF0, 0x9F, 0x98, 0x80] : List Nat)).flatten ++ rest) := by
      rw [List.replicate_succ, List.flatten_cons, List.append_assoc]
      rfl
    rw [harith, hflat, decodeGo_step_grin, ih fuel rest, List.replicate_succ]
    rfl

/-- Byte length of a block of `n` copies of the U+1F600 bytes. -/
theorem grin_flat_length (n : Nat) :
    ((List.replicate n ([0xF0, 0x9F, 0x98, 0x80] : List Nat)).flatten).length
      = 4 * n := by
  induction n with
  | zero => rfl
  | succ n ih =>
    rw [List.replicate_succ, List.flatten_cons, List.length_append, ih]
    simp only [List.length_cons, List.length_nil]
    omega

/-- The decoded text of `fileBig`: 513 code points U+1F600 and a
comma. -/
theorem decode_fileBig :
    decodeIgnore fileBig = List.replicate 513 128512 ++ [44] := by
  show decodeGo fileBig.length fileBig = _
  have hlen : fileBig.length = 513 + 1540 := by
    rw [fileBig, List.length_append, grin_flat_length]
    rfl
  rw [hlen, fileBig, decodeGo_grin 513 1540 [44]]
  rfl

/-- The first 2048 bytes of `fileBig` are exactly 512 copies of the
U+1F600 bytes. -/
theorem take_fileBig :
    fileBig.take 2048
      = (List.replicate 512 ([0xF0, 0x9F, 0x98, 0x80] : List Nat)).flatten := by
  have hsplit : fileBig
      = (List.replicate 512 ([0xF0, 0x9F, 0x98, 0x80] : List Nat)).flatten
        ++ ([0xF0, 0x9F, 0x98, 0x80] ++ [44]) := by
    rw [fileBig]
    have h513 : (513 : Nat) = 512 + 1 := rfl
    rw [h513, List.replicate_succ', List.flatten_append, List.append_assoc]
    rfl
  rw [hsplit]
  exact List.take_left' (by rw [grin_flat_length])

/-- Decoding the first 2048 bytes of `fileBig` yields no comma
candidate: just 512 code points U+1F600. -/
theorem decode_take_fileBig :
    decodeIgnore (fileBig.take 2048) = List.replicate 512 128512 := by
  rw [take_fileBig]
  show decodeGo _ _ = _
  rw [grin_flat_length]
  have h0 : 4 * 512 = 512 + 1536 := rfl
  rw [h0, ← List.append_nil
    ((List.replicate 512 ([0xF0, 0x9F, 0x98, 0x80] : List Nat)).flatten),
    decodeGo_grin 512 1536 []]
  simp [decodeGo_nil]

/-- C9 as stated is false: for `fileBig` the first 2048 bytes decode to
a comma-free sample, so the claimed rule would delegate to the automatic
detection (here failing), yet the code finds the comma within the first
2048 characters of the decoded file and parses by comma. -/
theorem c9_counterexample :
    44 ∈ (decodeIgnore fileBig).take 2048
      ∧ 44 ∉ decodeIgnore (fileBig.take 2048)
      ∧ rawParse fileBig autoFail ≠ Except.error LoadErr.emptyData := by
  have hlen2 : (List.replicate 513 (128512 : Nat) ++ [44]).length ≤ 2048 := by
    rw [List.length_append, List.length_replicate]
    decide
  have h1 : 44 ∈ (decodeIgnore fileBig).take 2048 := by
    rw [decode_fileBig, List.take_of_length_le hlen2]
    exact List.mem_append_right _ (List.mem_cons_self 44 [])
  refine ⟨h1, ?_, ?_⟩
  · rw [decode_take_fileBig]
    intro hmem
    exact absurd (List.eq_of_mem_replicate hmem) (by decide)
  · simp only [rawParse]
    rw [if_pos h1]
    exact fun hcon => Except.noConfusion hcon

/-! ### C3: idempotence of clean -/

/-- Membership in `keepFirstsAux`: exactly the elements of the input
not already seen. -/
theorem mem_keepFirstsAux [DecidableEq β] (seen l : List β) (a : β) :
    a ∈ keepFirstsAux seen l ↔ a ∈ l ∧ a ∉ seen := by
  induction l generalizing seen with
  | nil => simp [keepFirstsAux]
  | cons x xs ih =>
    by_cases hx : x ∈ seen
    · rw [keepFirstsAux, if_pos hx, ih]
      constructor
      · rintro ⟨h1, h2⟩; exact ⟨List.mem_cons_of_mem x h1, h2⟩
      · rintro ⟨h1, h2⟩
        rcases List.mem_cons.mp h1 with rfl | h1
        · exact absurd hx h2
        · exact ⟨h1, h2⟩
    · rw [keepFirstsAux, if_neg hx]
      constructor
      · intro h
        rcases List.mem_cons.mp h with rfl | h
        · exact ⟨List.mem_cons_self a xs, hx⟩
        · obtain ⟨h1, h2⟩ := (ih (x :: seen)).mp h
          exact ⟨List.mem_cons_of_mem x h1,
            fun hs => h2 (List.mem_cons_of_mem x hs)⟩
      · rintro ⟨h1, h2⟩
        rcases List.mem_cons.mp h1 with rfl | h1
        · exact List.mem_cons_self a _
        · by_cases hax : a = x
          · subst hax; exact List.mem_cons_self a _
          · exact List.mem_cons_of_mem x
              ((ih (x :: seen)).mpr ⟨h1, by simp [hax, h2]⟩)

/-- `keepFirstsAux` returns a duplicate-free list. -/
theorem nodup_keepFirstsAux [DecidableEq β] (seen l : List β) :
    (keepFirstsAux seen l).Nodup := by
  induction l generalizing seen with
  | nil => simp [keepFirstsAux]
  | cons x xs ih =>
    by_cases hx : x ∈ seen
    · rw [keepFirstsAux, if_pos hx]; exact ih seen
    · rw [keepFirstsAux, if_neg hx]
      refine List.nodup_cons.mpr ⟨fun hmem => ?_, ih (x :: seen)⟩
      exact ((mem_keepFirstsAux _ _ _).mp hmem).2 (List.mem_cons_self x seen)

/-- On a duplicate-free list disjoint from `seen`, `keepFirstsAux` is
the identity. -/
theorem keepFirstsAux_eq_self [DecidableEq β] (seen l : List β)
    (hnd : l.Nodup) (hs : ∀ a ∈ l, a ∉ seen) :
    keepFirstsAux seen l = l := by
  induction l generalizing seen with
  | nil => rfl
  | cons x xs ih =>
    have hx : x ∉ seen := hs x (List.mem_cons_self x xs)
    rw [keepFirstsAux, if_neg hx]
    obtain ⟨hxs, hnd'⟩ := List.nodup_cons.mp hnd
    congr 1
    refine ih (x :: seen) hnd' (fun a ha => ?_)
    intro hmem
    rcases List.mem_cons.mp hmem with rfl | hmem
    · exact hxs ha
    · exact hs a (List.mem_cons_of_mem x ha) hmem

/-- `keepFirsts` is idempotent. -/
theorem keepFirsts_idem [DecidableEq β] (l : List β) :
    keepFirsts (keepFirsts l) = keepFirsts l :=
  keepFirstsAux_eq_self [] _ (nodup_keepFirstsAux [] l) (by simp)

/-- A row without missing cells is unchanged by `fillRow`. -/
theorem fillRow_eq_self (r prev : List (Option α))
    (h : ∀ x ∈ r, x ≠ none) : fillRow r prev = r := by
  induction r generalizing prev with
  | nil => cases prev <;> rfl
  | cons x xs ih =>
    have hx : x ≠ none := h x (List.mem_cons_self x xs)
    have hxs : ∀ y ∈ xs, y ≠ none := fun y hy => h y (List.mem_cons_of_mem x hy)
    cases prev with
    | nil => rw [fillRow, ih [] hxs]
    | cons p ps =>
      rw [fillRow, ih ps hxs]
      cases x with
      | none => exact absurd rfl hx
      | some v => rfl

/-- A table without missing cells is unchanged by forward fill. -/
theorem ffillGo_eq_self (prev : List (Option α))
    (rows : List (List (Option α)))
    (h : ∀ r ∈ rows, ∀ x ∈ r, x ≠ none) : ffillGo prev rows = rows := by
  induction rows generalizing prev with
  | nil => rfl
  | cons r rs ih =>
    have hr := h r (List.mem_cons_self r rs)
    have hrs : ∀ q ∈ rs, ∀ x ∈ q, x ≠ none :=
      fun q hq => h q (List.mem_cons_of_mem r hq)
    rw [ffillGo, fillRow_eq_self r prev hr, ih r hrs]

/-- C3 corrected: `clean_df` is not idempotent in general (see
`c3_counterexample`), but it is idempotent on every table without
missing values. -/
theorem c3_clean_idempotent_no_missing {α : Type u} [DecidableEq α]
    (t : Table α) (h : ∀ r ∈ t.rows, ∀ x ∈ r, x ≠ none) :
    clean_df (clean_df t) = clean_df t := by
  have hk : ∀ r ∈ keepFirsts t.rows, ∀ x ∈ r, x ≠ none :=
    fun r hr => h r ((mem_keepFirstsAux [] t.rows r).mp hr).1
  show Table.mk _ _ = Table.mk _ _
  rw [clean_df]
  show Table.mk t.cols
      (ffill (keepFirsts (ffill (keepFirsts t.rows)))) = _
  rw [show ffill (keepFirsts t.rows) = keepFirsts t.rows from
        ffillGo_eq_self [] _ hk,
      keepFirsts_idem,
      show ffill (keepFirsts t.rows) = keepFirsts t.rows from
        ffillGo_eq_self [] _ hk]

/-- C3 as stated is false: for `tDup`, forward fill makes the two
distinct rows equal, and a second clean removes the new duplicate. -/
theorem c3_counterexample : clean_df (clean_df tDup) ≠ clean_df tDup := by
  decide

/-- Witness for the corrected C3 on a duplicate-bearing table without
missing values. -/
theorem c3_clean_idempotent_no_missing_witness :
    clean_df (clean_df tTrip) = clean_df tTrip :=
  c3_clean_idempotent_no_missing tTrip (by decide)

/-! ### C10: structure of clean -/

/-- `keepFirstsAux` agrees with the left fold that appends each row on
its first occurrence, for any accumulator with the same members as
`seen`. -/
theorem keepFirstsAux_foldl [DecidableEq β] (l : List β) :
    ∀ (seen acc : List β), (∀ a, a ∈ seen ↔ a ∈ acc) →
    l.foldl (fun acc x => if x ∈ acc then acc else acc ++ [x]) acc
      = acc ++ keepFirstsAux seen l := by
  induction l with
  | nil => intro seen acc h; simp [keepFirstsAux]
  | cons x xs ih =>
    intro seen acc h
    by_cases hx : x ∈ seen
    · rw [List.foldl_cons, if_pos ((h x).mp hx), keepFirstsAux, if_pos hx]
      exact ih seen acc h
    · rw [List.foldl_cons, if_neg (fun hc => hx ((h x).mpr hc)),
        keepFirstsAux, if_neg hx,
        ih (x :: seen) (acc ++ [x]) (fun a => by
          simp only [List.mem_cons, List.mem_append, List.mem_singleton, h a]
          tauto),
        List.append_assoc]
      rfl

/-- `keepFirsts` is exactly the first-occurrence fold. -/
theorem keepFirsts_eq_firstOccurrences [DecidableEq β] (l : List β) :
    keepFirsts l = firstOccurrences l := by
  rw [keepFirsts, firstOccurrences, keepFirstsAux_foldl l [] [] (by simp),
    List.nil_append]

/-- The deduplicated rows are a sublist of the original rows. -/
theorem keepFirstsAux_sublist [DecidableEq β] (seen l : List β) :
    List.Sublist (keepFirstsAux seen l) l := by
  induction l generalizing seen with
  | nil => simp [keepFirstsAux]
  | cons x xs ih =>
    by_cases hx : x ∈ seen
    · rw [keepFirstsAux, if_pos hx]; exact (ih seen).cons x
    · rw [keepFirstsAux, if_neg hx]; exact (ih (x :: seen)).cons₂ x

/-- Forward fill preserves the row count. -/
theorem ffillGo_length (rows : List (List (Option α))) :
    ∀ prev : List (Option α), (ffillGo prev rows).length = rows.length := by
  induction rows with
  | nil => intro prev; rfl
  | cons r rs ih => intro prev; rw [ffillGo]; simp [ih]

/-- `fillRow` keeps a cell's value or fills a missing one. -/
theorem fillRow_getD_or (r : List (Option α)) :
    ∀ (prev : List (Option α)) (c : Nat),
    (fillRow r prev).getD c none = r.getD c none ∨ r.getD c none = none := by
  induction r with
  | nil => intro prev c; left; cases prev <;> rfl
  | cons x xs ih =>
    intro prev c
    cases prev with
    | nil =>
      cases c with
      | zero => left; rfl
      | succ n => simpa [fillRow] using ih [] n
    | cons p ps =>
      cases c with
      | zero =>
        cases x with
        | some v => left; rfl
        | none => right; rfl
      | succ n => simpa [fillRow] using ih ps n

/-- Forward fill changes a cell only when it was missing. -/
theorem cell_ffillGo_or (rows : List (List (Option α))) :
    ∀ (prev : List (Option α)) (i c : Nat),
    cell (ffillGo prev rows) i c = cell rows i c
      ∨ cell rows i c = none := by
  induction rows with
  | nil => intro prev i c; left; rfl
  | cons r rs ih =>
    intro prev i c
    cases i with
    | zero => simpa [cell, ffillGo] using fillRow_getD_or r prev c
    | succ n => simpa [cell, ffillGo] using ih (fillRow r prev) n c

/-- C10: `clean_df` keeps the column labels; its rows are the first
occurrences of the distinct input rows in their original relative order
(a duplicate-free sublist, described by the first-occurrence fold), and
the forward-fill step only replaces missing cells in place — it never
reorders, adds, or removes rows. -/
theorem c10_clean_structure {α : Type u} [DecidableEq α] (t : Table α) :
    (clean_df t).cols = t.cols
      ∧ keepFirsts t.rows = firstOccurrences t.rows
      ∧ List.Sublist (keepFirsts t.rows) t.rows
      ∧ (keepFirsts t.rows).Nodup
      ∧ (clean_df t).rows.length = (keepFirsts t.rows).length
      ∧ ∀ i c, cell (clean_df t).rows i c = cell (keepFirsts t.rows) i c
          ∨ cell (keepFirsts t.rows) i c = none :=
  ⟨rfl, keepFirsts_eq_firstOccurrences t.rows,
   keepFirstsAux_sublist [] t.rows,
   nodup_keepFirstsAux [] t.rows,
   ffillGo_length (keepFirsts t.rows) [],
   fun i c => cell_ffillGo_or (keepFirsts t.rows) [] i c⟩

/-! ### C4: forward-fill postcondition -/

/-- `fillRow` preserves row length. -/
theorem fillRow_length (r : List (Option α)) :
    ∀ prev : List (Option α), (fillRow r prev).length = r.length := by
  induction r with
  | nil => intro prev; cases prev <;> rfl
  | cons x xs ih =>
    intro prev
    cases prev with
    | nil => simp [fillRow, ih]
    | cons p ps => simp [fillRow, ih]

/-- An option or-else with a missing fallback is the option itself. -/
theorem orElse_none_right (a : Option α) : (a <|> none) = a := by
  cases a <;> rfl

/-- Or-else on options is associative. -/
theorem orElse_assoc (a b c : Option α) :
    ((a <|> b) <|> c) = (a <|> (b <|> c)) := by
  cases a <;> rfl

/-- Cell access after `fillRow`, when the previous-state row is no
longer than the row being filled. -/
theorem fillRow_getD (r : List (Option α)) :
    ∀ (prev : List (Option α)) (c : Nat), prev.length ≤ r.length →
    (fillRow r prev).getD c none = (r.getD c none <|> prev.getD c none) := by
  induction r with
  | nil =>
    intro prev c hlen
    have : prev = [] := List.length_eq_zero.mp (Nat.le_zero.mp hlen)
    subst this
    rfl
  | cons x xs ih =>
    intro prev c hlen
    cases prev with
    | nil =>
      cases c with
      | zero => exact (orElse_none_right x).symm
      | succ n =>
        simpa [fillRow, List.getD_nil] using ih [] n (by simp)
    | cons p ps =>
      cases c with
      | zero => rfl
      | succ n =>
        simpa [fillRow] using ih ps n (Nat.succ_le_succ_iff.mp (by simpa using hlen))

/-- Characterisation of forward fill on a uniform-width table: the cell
at row `i`, column `c` is the last non-missing value of column `c` among
rows `0..i`, falling back to the threaded previous state. -/
theorem ffillGo_cell_char (rows : List (List (Option α))) :
    ∀ (prev : List (Option α)) (w i c : Nat),
    (∀ r ∈ rows, r.length = w) → prev.length ≤ w → i < rows.length →
    cell (ffillGo prev rows) i c
      = (lastSome (colCells c rows i) <|> prev.getD c none) := by
  induction rows with
  | nil => intro prev w i c _ _ hi; exact absurd hi (Nat.not_lt_zero i)
  | cons r rs ih =>
    intro prev w i c hw hp hi
    have hrw : r.length = w := hw r (List.mem_cons_self r rs)
    have hpr : prev.length ≤ r.length := hrw ▸ hp
    cases i with
    | zero =>
      show (fillRow r prev).getD c none = _
      rw [fillRow_getD r prev c hpr]
      show _ = ((lastSome [] <|> r.getD c none) <|> prev.getD c none)
      rfl
    | succ n =>
      show cell (ffillGo (fillRow r prev) rs) n c = _
      rw [ih (fillRow r prev) w n c
          (fun q hq => hw q (List.mem_cons_of_mem r hq))
          (by rw [fillRow_length]; exact Nat.le_of_eq hrw)
          (Nat.succ_lt_succ_iff.mp (by simpa using hi)),
        fillRow_getD r prev c hpr]
      show _ = (lastSome (r.getD c none :: colCells c rs n) <|> prev.getD c none)
      rw [show lastSome (r.getD c none :: colCells c rs n)
            = (lastSome (colCells c rs n) <|> r.getD c none) from rfl,
        orElse_assoc]

/-- If the last non-missing value does not exist, every entry is
missing. -/
theorem lastSome_eq_none (L : List (Option α)) (h : lastSome L = none) :
    ∀ x ∈ L, x = none := by
  induction L with
  | nil => intro x hx; cases hx
  | cons y ys ih =>
    intro x hx
    rw [lastSome] at h
    cases hy : lastSome ys with
    | some v => rw [hy] at h; exact Option.noConfusion h
    | none =>
      rw [hy] at h
      rcases List.mem_cons.mp hx with rfl | hx
      · exact h
      · exact ih hy x hx

/-- All the entries of `colCells` below a missing conclusion. -/
theorem colCells_cell_none (rows : List (List (Option α))) :
    ∀ (i c : Nat), (∀ y ∈ colCells c rows i, y = none) →
    ∀ j, j ≤ i → cell rows j c = none := by
  induction rows with
  | nil => intro i c _ j _; rfl
  | cons r rs ih =>
    intro i c h j hj
    cases i with
    | zero =>
      have hj0 : j = 0 := Nat.le_zero.mp hj
      subst hj0
      exact h _ (List.mem_cons_self _ _)
    | succ n =>
      cases j with
      | zero => exact h _ (List.mem_cons_self _ _)
      | succ m =>
        show cell rs m c = none
        exact ih n c (fun y hy => h y (List.mem_cons_of_mem _ hy)) m
          (Nat.succ_le_succ_iff.mp hj)

/-- Pointwise missing cells make all `colCells` entries missing. -/
theorem colCells_all_none (rows : List (List (Option α))) :
    ∀ (i c : Nat), (∀ k, k ≤ i → cell rows k c = none) →
    ∀ y ∈ colCells c rows i, y = none := by
  induction rows with
  | nil => intro i c _ y hy; cases hy
  | cons r rs ih =>
    intro i c h y hy
    cases i with
    | zero =>
      rcases List.mem_cons.mp hy with rfl | hy
      · exact h 0 (Nat.le_refl 0)
      · cases hy
    | succ n =>
      rcases List.mem_cons.mp hy with rfl | hy
      · exact h 0 (Nat.zero_le _)
      · exact ih n c (fun k hk => h (k + 1) (Nat.succ_le_succ hk)) y hy

/-- Missing entries do not change the last non-missing value. -/
theorem lastSome_all_none (L : List (Option α)) (h : ∀ x ∈ L, x = none) :
    lastSome L = none := by
  induction L with
  | nil => rfl
  | cons y ys ih =>
    rw [lastSome, ih (fun x hx => h x (List.mem_cons_of_mem y hx)),
      h y (List.mem_cons_self y ys)]
    rfl

/-- The last non-missing value of column `c` up to row `i` is the value
at the last row `j ≤ i` whose cell is present. -/
theorem lastSome_colCells_some (rows : List (List (Option α))) :
    ∀ (i j c : Nat) (x : α), j ≤ i → i < rows.length →
    cell rows j c = some x →
    (∀ k, j < k → k ≤ i → cell rows k c = none) →
    lastSome (colCells c rows i) = some x := by
  induction rows with
  | nil => intro i j c x _ hi _ _; exact absurd hi (Nat.not_lt_zero i)
  | cons r rs ih =>
    intro i j c x hj hi hx hafter
    cases i with
    | zero =>
      have hj0 : j = 0 := Nat.le_zero.mp hj
      subst hj0
      show (lastSome [] <|> r.getD c none) = some x
      show (none <|> r.getD c none) = some x
      exact hx
    | succ n =>
      show (lastSome (colCells c rs n) <|> r.getD c none) = some x
      cases j with
      | zero =>
        have hnone : ∀ k, k ≤ n → cell rs k c = none :=
          fun k hk => hafter (k + 1) (Nat.succ_pos k) (Nat.succ_le_succ hk)
        rw [lastSome_all_none _ (colCells_all_none rs n c hnone)]
        exact hx
      | succ m =>
        rw [ih n m c x (Nat.succ_le_succ_iff.mp hj)
          (Nat.succ_lt_succ_iff.mp (by simpa using hi)) hx
          (fun k hk1 hk2 =>
            hafter (k + 1) (Nat.succ_lt_succ hk1) (Nat.succ_le_succ hk2))]
        rfl

/-- C4: on a uniform-width table, after `clean_df` a cell is missing
only if every cell above it (itself included) in its column was missing
in the deduplicated table; and a cell whose nearest preceding
non-missing value in its column is `x` becomes `x`. -/
theorem c4_forward_fill {α : Type u} [DecidableEq α] (t : Table α)
    (w : Nat) (hw : ∀ r ∈ t.rows, r.length = w) (i c : Nat)
    (hi : i < (keepFirsts t.rows).length) :
    (cell (clean_df t).rows i c = none →
        ∀ j, j ≤ i → cell (keepFirsts t.rows) j c = none)
      ∧ ∀ j x, j ≤ i → cell (keepFirsts t.rows) j c = some x →
          (∀ k, j < k → k ≤ i → cell (keepFirsts t.rows) k c = none) →
          cell (clean_df t).rows i c = some x := by
  have hwK : ∀ r ∈ keepFirsts t.rows, r.length = w :=
    fun r hr => hw r ((mem_keepFirstsAux [] t.rows r).mp hr).1
  have hchar := ffillGo_cell_char (keepFirsts t.rows) [] w i c hwK
    (Nat.zero_le w) hi
  have hceq : cell (clean_df t).rows i c
      = lastSome (colCells c (keepFirsts t.rows) i) := by
    rw [show (clean_df t).rows = ffillGo [] (keepFirsts t.rows) from rfl,
      hchar]
    exact orElse_none_right _
  constructor
  · intro h0 j hj
    rw [hceq] at h0
    exact colCells_cell_none (keepFirsts t.rows) i c
      (lastSome_eq_none _ h0) j hj
  · intro j x hj hx hafter
    rw [hceq]
    exact lastSome_colCells_some (keepFirsts t.rows) i j c x hj hi hx hafter

/-- Witness for C4: in `tFill` the missing third field of row 1 becomes
the value `X` from row 0. -/
theorem c4_forward_fill_witness :
    cell (clean_df tFill).rows 1 2 = some [88] :=
  (c4_forward_fill tFill 3 (by decide) 1 2 (by decide)).2 0 [88]
    (by decide) (by decide)
    (fun k h1 h2 => by
      have hk : k = 1 := by omega
      subst hk
      decide)

/-! ### C6: CSV round trip -/

/-- Splitting a separator-free chunk. -/
theorem splitSep_no_sep [DecidableEq β] (sep : β) (l : List β)
    (h : sep ∉ l) : splitSep sep l = [l] := by
  induction l with
  | nil => rfl
  | cons b bs ih =>
    have hb : b ≠ sep := fun hbe => h (hbe ▸ List.mem_cons_self b bs)
    rw [splitSep, if_neg hb, ih (fun hm => h (List.mem_cons_of_mem b hm))]

/-- Splitting after a separator-free prefix peels that prefix off. -/
theorem splitSep_append_sep [DecidableEq β] (sep : β) (l r : List β)
    (h : sep ∉ l) : splitSep sep (l ++ sep :: r) = l :: splitSep sep r := by
  induction l with
  | nil => rw [List.nil_append, splitSep, if_pos rfl]
  | cons b bs ih =>
    have hb : b ≠ sep := fun hbe => h (hbe ▸ List.mem_cons_self b bs)
    rw [List.cons_append, splitSep, if_neg hb,
      ih (fun hm => h (List.mem_cons_of_mem b hm))]

/-- `splitSep` is a left inverse of `joinSep` on non-empty chunk lists
whose chunks avoid the separator. -/
theorem splitSep_joinSep [DecidableEq β] (sep : β) (fs : List (List β))
    (hne : fs ≠ []) (hf : ∀ f ∈ fs, sep ∉ f) :
    splitSep sep (joinSep sep fs) = fs := by
  induction fs with
  | nil => exact absurd rfl hne
  | cons f fs ih =>
    cases fs with
    | nil => exact splitSep_no_sep sep f (hf f (List.mem_cons_self f []))
    | cons g gs =>
      rw [show joinSep sep (f :: g :: gs) = f ++ sep :: joinSep sep (g :: gs)
          from rfl,
        splitSep_append_sep sep f _ (hf f (List.mem_cons_self f _)),
        ih (fun hc => List.noConfusion hc)
          (fun q hq => hf q (List.mem_cons_of_mem f hq))]

/-- Every element of a joined list is the separator or comes from a
chunk. -/
theorem mem_joinSep (sep : β) (fs : List (List β)) (x : β)
    (hx : x ∈ joinSep sep fs) : x = sep ∨ ∃ f ∈ fs, x ∈ f := by
  induction fs with
  | nil => cases hx
  | cons f fs ih =>
    cases fs with
    | nil => exact Or.inr ⟨f, List.mem_cons_self f [], hx⟩
    | cons g gs =>
      rw [show joinSep sep (f :: g :: gs) = f ++ sep :: joinSep sep (g :: gs)
          from rfl] at hx
      rcases List.mem_append.mp hx with hin | hin
      · exact Or.inr ⟨f, List.mem_cons_self f _, hin⟩
      · rcases List.mem_cons.mp hin with rfl | hin
        · exact Or.inl rfl
        · rcases ih hin with h1 | ⟨q, hq, hxq⟩
          · exact Or.inl h1
          · exact Or.inr ⟨q, List.mem_cons_of_mem f hq, hxq⟩

/-- Joining at least two chunks always yields a non-empty list. -/
theorem joinSep_ne_nil (sep : β) (fs : List (List β))
    (h : 2 ≤ fs.length) : joinSep sep fs ≠ [] := by
  match fs, h with
  | f :: g :: gs, _ =>
    rw [show joinSep sep (f :: g :: gs) = f ++ sep :: joinSep sep (g :: gs)
        from rfl]
    cases f with
    | nil => exact fun hc => List.noConfusion hc
    | cons a as => exact fun hc => List.noConfusion hc

/-- Splitting newline-terminated lines recovers the lines plus one
final empty chunk. -/
theorem lines_split (ls : List (List Nat))
    (h : ∀ l ∈ ls, (10 : Nat) ∉ l) :
    splitSep 10 ((ls.map (fun l => l ++ [10])).flatten) = ls ++ [[]] := by
  induction ls with
  | nil => rfl
  | cons l ls ih =>
    rw [List.map_cons, List.flatten_cons, List.append_assoc]
    rw [show ([10] ++ (ls.map (fun l => l ++ [10])).flatten)
        = 10 :: (ls.map (fun l => l ++ [10])).flatten from rfl]
    rw [splitSep_append_sep 10 l _ (h l (List.mem_cons_self l ls)),
      ih (fun q hq => h q (List.mem_cons_of_mem l hq))]
    rfl

/-- The last element with fallback is the fallback or a member. -/
theorem getLastD_mem_or (l : List β) : ∀ d : β,
    l.getLastD d = d ∨ l.getLastD d ∈ l := by
  induction l with
  | nil => intro d; exact Or.inl rfl
  | cons a as ih =>
    intro d
    rw [List.getLastD_cons]
    rcases ih a with h1 | h1
    · right; rw [h1]; exact List.mem_cons_self a as
    · right; exact List.mem_cons_of_mem a h1

/-- A line without a carriage return is unchanged by `stripCR`. -/
theorem stripCR_eq (l : List Nat) (h : (13 : Nat) ∉ l) : stripCR l = l := by
  rw [stripCR, if_neg]
  intro hlast
  rcases getLastD_mem_or l 0 with h1 | h1
  · rw [h1] at hlast; exact absurd hlast (by decide)
  · rw [hlast] at h1; exact h h1

/-- C6 amended: the CSV round trip is exact for every Wine-shaped table
(fixed 14 labels, 14 cells per row) whose present cells avoid the
delimiter, newline, carriage-return and quote characters and the NA
sentinels.  (A present empty-string cell, in particular, comes back as
a missing value — see `c6_counterexample`.) -/
theorem c6_csv_roundtrip (t : Table (List Nat))
    (hc : t.cols = WINE_HEADERS)
    (hw : ∀ r ∈ t.rows, r.length = 14)
    (hcell : ∀ r ∈ t.rows, ∀ s ∈ r.filterMap (fun x => x),
        44 ∉ s ∧ 10 ∉ s ∧ 13 ∉ s ∧ 34 ∉ s ∧ s ∉ naTokens) :
    reload_csv (to_csvText t) = some t := by
  have hfield : ∀ r ∈ t.rows, ∀ x ∈ r, ∀ b ∈ x.getD ([] : List Nat),
      b = 44 ∨ b = 10 ∨ b = 13 ∨ b = 34 → False := by
    intro r hr x hx b hb hbad
    cases x with
    | none => cases hb
    | some s =>
      have hs := hcell r hr s (List.mem_filterMap.mpr ⟨some s, hx, rfl⟩)
      rcases hbad with rfl | rfl | rfl | rfl
      · exact hs.1 hb
      · exact hs.2.1 hb
      · exact hs.2.2.1 hb
      · exact hs.2.2.2.1 hb
  have hrowsep : ∀ (b : Nat), b = 10 ∨ b = 13 → ∀ r ∈ t.rows,
      b ∉ rowLine r := by
    intro b hb r hr hmem
    rcases mem_joinSep 44 _ b hmem with h44 | ⟨f, hf, hbf⟩
    · rcases hb with rfl | rfl
      · exact absurd h44 (by decide)
      · exact absurd h44 (by decide)
    · rcases List.mem_map.mp hf with ⟨x, hx, rfl⟩
      rcases hb with rfl | rfl
      · exact hfield r hr x hx 10 hbf (Or.inr (Or.inl rfl))
      · exact hfield r hr x hx 13 hbf (Or.inr (Or.inr (Or.inl rfl)))
  have hlines10 : ∀ l ∈ headerLine t.cols :: t.rows.map rowLine,
      (10 : Nat) ∉ l := by
    intro l hl
    rcases List.mem_cons.mp hl with rfl | hl
    · rw [hc]; decide
    · rcases List.mem_map.mp hl with ⟨r, hr, rfl⟩
      exact hrowsep 10 (Or.inl rfl) r hr
  have hlines13 : ∀ l ∈ headerLine t.cols :: t.rows.map rowLine,
      (13 : Nat) ∉ l := by
    intro l hl
    rcases List.mem_cons.mp hl with rfl | hl
    · rw [hc]; decide
    · rcases List.mem_map.mp hl with ⟨r, hr, rfl⟩
      exact hrowsep 13 (Or.inr rfl) r hr
  have hnonempty : ∀ l ∈ headerLine t.cols :: t.rows.map rowLine,
      (!l.isEmpty) = true := by
    intro l hl
    rcases List.mem_cons.mp hl with rfl | hl
    · rw [hc]; decide
    · rcases List.mem_map.mp hl with ⟨r, hr, rfl⟩
      have hlen : 2 ≤ (r.map (fun x : Option (List Nat) => x.getD [])).length := by
        rw [List.length_map, hw r hr]
        decide
      have hne := joinSep_ne_nil 44 _ hlen
      show (!(rowLine r).isEmpty) = true
      rw [rowLine]
      cases hjs : joinSep 44 (r.map (fun x => x.getD [])) with
      | nil => exact absurd hjs hne
      | cons a as => rfl
  have h1 : splitSep 10 (to_csvText t)
      = (headerLine t.cols :: t.rows.map rowLine) ++ [[]] :=
    lines_split _ hlines10
  have h2 : ((headerLine t.cols :: t.rows.map rowLine) ++ [[]]).map stripCR
      = (headerLine t.cols :: t.rows.map rowLine) ++ [[]] := by
    rw [List.map_append]
    congr 1
    · calc (headerLine t.cols :: t.rows.map rowLine).map stripCR
          = (headerLine t.cols :: t.rows.map rowLine).map id :=
            List.map_congr_left (fun l hl => stripCR_eq l (hlines13 l hl))
        _ = _ := List.map_id _
  have h3 : ((headerLine t.cols :: t.rows.map rowLine) ++ [[]]).filter
        (fun l => !l.isEmpty)
      = headerLine t.cols :: t.rows.map rowLine := by
    rw [List.filter_append, List.filter_eq_self.mpr hnonempty,
      show ([[]] : List (List Nat)).filter (fun l => !l.isEmpty) = [] from rfl,
      List.append_nil]
  have hscrut : ((splitSep 10 (to_csvText t)).map stripCR).filter
        (fun l => !l.isEmpty)
      = headerLine t.cols :: t.rows.map rowLine := by
    rw [h1, h2, h3]
  have hcols : (splitSep 44 (headerLine t.cols)).map codesStr = t.cols := by
    rw [hc]
    decide
  have hone : ∀ r ∈ t.rows, lineCells (rowLine r) = r := by
    intro r hr
    have hfnil : (r.map (fun x : Option (List Nat) => x.getD [])) ≠ [] := by
      intro habs
      have hlen := congrArg List.length habs
      rw [List.length_map, hw r hr] at hlen
      exact absurd hlen (by decide)
    have hf44 : ∀ f ∈ r.map (fun x : Option (List Nat) => x.getD []),
        (44 : Nat) ∉ f := by
      intro f hf hmem
      rcases List.mem_map.mp hf with ⟨x, hx, rfl⟩
      exact hfield r hr x hx 44 hmem (Or.inl rfl)
    show (splitSep 44 (rowLine r)).map cellOf = r
    rw [rowLine, splitSep_joinSep 44 _ hfnil hf44, List.map_map]
    have hcellid : ∀ x ∈ r,
        (cellOf ∘ fun x : Option (List Nat) => x.getD []) x = id x := by
      intro x hx
      cases x with
      | none =>
        show cellOf [] = none
        rw [cellOf, if_pos (show ([] : List Nat) ∈ naTokens by decide)]
      | some s =>
        show cellOf s = some s
        rw [cellOf,
          if_neg ((hcell r hr s
            (List.mem_filterMap.mpr ⟨some s, hx, rfl⟩)).2.2.2.2)]
    calc r.map (cellOf ∘ fun x : Option (List Nat) => x.getD [])
        = r.map id := List.map_congr_left hcellid
      _ = r := List.map_id r
  have hrows : (t.rows.map rowLine).map lineCells = t.rows := by
    rw [List.map_map]
    calc t.rows.map (lineCells ∘ rowLine)
        = t.rows.map id := List.map_congr_left (fun r hr => hone r hr)
      _ = t.rows := List.map_id t.rows
  unfold reload_csv
  rw [hscrut]
  show some (Table.mk ((splitSep 44 (headerLine t.cols)).map codesStr)
      ((t.rows.map rowLine).map lineCells)) = some t
  rw [hcols, hrows]

/-- C6 as stated is false: a table holding a present empty-string cell
serializes that cell to an empty field, which reloads as a missing
value, so the reloaded table differs from the saved one. -/
theorem c6_counterexample :
    reload_csv (to_csvText tEmptyCell) ≠ some tEmptyCell := by
  decide

/-- Witness for the amended C6 on a well-behaved two-row Wine table. -/
theorem c6_csv_roundtrip_witness :
    reload_csv (to_csvText tGood) = some tGood :=
  c6_csv_roundtrip tGood (by decide) (by decide) (by decide)

end DotConv
